import Mathlib

/-!
Shallow embedding of the `nlp-poc` book-summary pipeline.

The definitions below are translated from the Python sources:
  * `src/scripts/generate_book_summaries.py` (`clean_text`, `chunk_text_large`,
    `process_single_book`, `process_all_books_scalable`, checkpointing),
  * `src/scripts/bulk_index_to_opensearch.py` (`generate_documents` id derivation),
  * `src/lambda/lambda_function.py` and `lambda/lambda_function.py`
    (`lambda_handler`, `search_opensearch_multi_strategy`).

Texts are modelled as `List Char`.  Python regex character classes `\w` and `\s`
are modelled by their ASCII meaning (the repository only processes ASCII
Project Gutenberg text).  External services (S3, Bedrock, OpenSearch) are
modelled as oracle parameters returning `Option`/`Except` results, mirroring
the `try/except` blocks that turn client errors into `None` returns.
-/

abbrev Chars := List Char

/-- Python regex `\w` (word character), ASCII fragment: letters, digits, underscore. -/
def isWordChar (c : Char) : Bool := c.isAlphanum || c = '_'

/-- Python regex `\s` / `str.strip` whitespace, ASCII fragment:
space, tab, newline, carriage return, vertical tab, form feed. -/
def isPySpace (c : Char) : Bool :=
  c = ' ' || c = '\t' || c = '\n' || c = '\r' || c = '\x0b' || c = '\x0c'

/-- Does `t` start with `pat`?  Used to locate substring occurrences
(Python `in`, `str.find`, `str.rfind`). -/
def startsWith : Chars → Chars → Bool
  | _, [] => true
  | [], _ :: _ => false
  | c :: cs, p :: ps => c = p && startsWith cs ps

/-- Index of the first occurrence of `pat` in `t`
(Python `str.find`; `pat in t` is `(firstOcc t pat).isSome`). -/
def firstOcc : Chars → Chars → Option Nat
  | [], pat => if startsWith [] pat then some 0 else none
  | c :: rest, pat =>
    if startsWith (c :: rest) pat then some 0 else (firstOcc rest pat).map (· + 1)

/-- Python `pat in t`. -/
def containsSub (t pat : Chars) : Bool := (firstOcc t pat).isSome

/-- Python `t.split(pat, 1)[1]` when `pat in t`, else `t` (everything after the
first occurrence of the marker). -/
def splitAfter (t pat : Chars) : Chars :=
  match firstOcc t pat with
  | some i => t.drop (i + pat.length)
  | none => t

/-- Python `t.split(pat, 1)[0]` when `pat in t`, else `t` (everything before the
first occurrence of the marker). -/
def splitBefore (t pat : Chars) : Chars :=
  match firstOcc t pat with
  | some i => t.take i
  | none => t

/-- Start markers of `clean_text`, in the priority order of the source. -/
def startMarker1 : Chars := "*** START OF THE PROJECT GUTENBERG EBOOK".toList
def startMarker2 : Chars := "*** START OF THIS PROJECT GUTENBERG EBOOK".toList
def startMarker3 : Chars := "The Project Gutenberg eBook of".toList

/-- End markers of `clean_text`, in the priority order of the source. -/
def endMarker1 : Chars := "*** END OF THE PROJECT GUTENBERG EBOOK".toList
def endMarker2 : Chars := "*** END OF THIS PROJECT GUTENBERG EBOOK".toList

/-- The first `for marker in start_markers` loop of `clean_text`: split on the
first listed marker present (taking the text after it) and stop. -/
def cutStart (t : Chars) : Chars :=
  if containsSub t startMarker1 then splitAfter t startMarker1
  else if containsSub t startMarker2 then splitAfter t startMarker2
  else if containsSub t startMarker3 then splitAfter t startMarker3
  else t

/-- The `for marker in end_markers` loop of `clean_text`: split on the first
listed marker present (keeping the text before it) and stop. -/
def cutEnd (t : Chars) : Chars :=
  if containsSub t endMarker1 then splitBefore t endMarker1
  else if containsSub t endMarker2 then splitBefore t endMarker2
  else t

/-- Python `re.sub(r'\r\n', '\n', t)`: left-to-right non-overlapping replacement. -/
def replCRLF : Chars → Chars
  | [] => []
  | c :: rest =>
    match rest with
    | [] => [c]
    | c2 :: rest2 =>
      if c = '\r' ∧ c2 = '\n' then '\n' :: replCRLF rest2
      else c :: replCRLF (c2 :: rest2)

/-- State machine for `re.sub(r'\n{3,}', '\n\n', t)`: `pending` counts the
newlines of the current run; a maximal run of three or more newlines is
emitted as exactly two. -/
def collapseGo : Nat → Chars → Chars
  | pending, [] => List.replicate (min pending 2) '\n'
  | pending, c :: rest =>
    if c = '\n' then collapseGo (pending + 1) rest
    else List.replicate (min pending 2) '\n' ++ c :: collapseGo 0 rest

/-- Python `re.sub(r'\n{3,}', '\n\n', t)`. -/
def collapseNL (t : Chars) : Chars := collapseGo 0 t

/-- Characters kept by `re.sub(r'[^\w\s\n.,!?;:()\'"-]', '', t)`. -/
def allowedChar (c : Char) : Bool :=
  isWordChar c || isPySpace c || c = '.' || c = ',' || c = '!' || c = '?' ||
    c = ';' || c = ':' || c = '(' || c = ')' || c = '\'' || c = '"' || c = '-'

/-- Python `t.strip()`, left part. -/
def stripL (t : Chars) : Chars := t.dropWhile isPySpace

/-- Python `t.strip()`, right part. -/
def stripR (t : Chars) : Chars := (t.reverse.dropWhile isPySpace).reverse

/-- Python `t.strip()`. -/
def pyStrip (t : Chars) : Chars := stripR (stripL t)

/-- Model of `BookSummaryGenerator.clean_text` from `generate_book_summaries.py`:
strip the Gutenberg header and footer, normalize line endings, collapse runs
of three or more newlines, drop disallowed characters, strip whitespace. -/
def clean_text (t : Chars) : Chars :=
  pyStrip (List.filter allowedChar (collapseNL (replCRLF (cutEnd (cutStart t)))))

/-- Python slice-index resolution for non-negative step: a negative index
counts from the end, then the result is clamped to `[0, n]`. -/
def resolveIdx (n : Nat) (i : Int) : Nat :=
  if i < 0 then
    if i + n < 0 then 0 else if (n : Int) ≤ i + n then n else (i + n).toNat
  else
    if (n : Int) ≤ i then n else i.toNat

/-- Python `t[a:b]`. -/
def pySlice (t : Chars) (a b : Int) : Chars :=
  let a' := resolveIdx t.length a
  let b' := resolveIdx t.length b
  (t.drop a').take (b' - a')

/-- Last occurrence of `pat` fully inside the window `[a, b)` of `t`
(absolute index). -/
def lastOcc (t pat : Chars) (a b : Nat) : Option Nat :=
  ((List.range b).filter fun i =>
    decide (a ≤ i) && decide (i + pat.length ≤ b) && startsWith (t.drop i) pat).getLast?

/-- Python `t.rfind(pat, a, b)`: `-1` when `pat` does not occur in the window. -/
def pyRfind (t pat : Chars) (a b : Int) : Int :=
  match lastOcc t pat (resolveIdx t.length a) (resolveIdx t.length b) with
  | some j => (j : Int)
  | none => -1

/-- The chunk-end selection of `chunk_text_large`: propose `start + size`;
if that is strictly inside the text, prefer the last paragraph break after the
half-window, else the last `.`/`!`/`?` after the half-window (tried in that
order), else keep the hard cut. -/
def chunkEnd (t : Chars) (size : Nat) (start : Int) : Int :=
  let end0 : Int := start + size
  if end0 < (t.length : Int) then
    let half : Int := start + ((size / 2 : Nat) : Int)
    let lastPara := pyRfind t ['\n', '\n'] start end0
    if lastPara > half then lastPara + 2
    else
      let dDot := pyRfind t ['.'] start end0
      if dDot > half then dDot + 1
      else
        let dBang := pyRfind t ['!'] start end0
        if dBang > half then dBang + 1
        else
          let dQ := pyRfind t ['?'] start end0
          if dQ > half then dQ + 1
          else end0
  else end0

/-- The `while start < len(text)` loop of `chunk_text_large`, with explicit
fuel: `none` models the loop still running after `fuel` iterations.  Each
iteration slices `t[start:end]`, strips it, appends it when non-empty, and
advances `start` to `end - overlap`. -/
def chunkLoop (t : Chars) (size overlap : Nat) :
    Nat → Int → List Chars → Option (List Chars)
  | 0, _, _ => none
  | fuel + 1, start, acc =>
    if start < (t.length : Int) then
      let e := chunkEnd t size start
      let c := pyStrip (pySlice t start e)
      let acc' := if c.isEmpty then acc else acc ++ [c]
      chunkLoop t size overlap fuel (e - (overlap : Int)) acc'
    else some acc

/-- Model of `BookSummaryGenerator.chunk_text_large`.  The fuel `t.length + 1` suffices
whenever the loop makes progress of at least one position per iteration. -/
def chunk_text_large (t : Chars) (size overlap : Nat) : Option (List Chars) :=
  chunkLoop t size overlap (t.length + 1) 0 []

/-- Termination of the `chunk_text_large` loop on a given input: some finite
fuel makes the loop finish. -/
def chunkTerminates (t : Chars) (size overlap : Nat) : Prop :=
  ∃ fuel cs, chunkLoop t size overlap fuel 0 [] = some cs

/-! ## Document identifier derivation (bulk indexer) -/

/-- Python `str.lower()`, ASCII fragment (the only letters the repository's
titles carry). -/
def pyLower (c : Char) : Char :=
  if 'A' ≤ c ∧ c ≤ 'Z' then Char.ofNat (c.toNat + 32) else c

/-- Characters kept by `re.sub(r'[^\w\s-]', '', title)`. -/
def idKeepChar (c : Char) : Bool := isWordChar c || isPySpace c || c = '-'

/-- Is `c` matched by the regex class `[-\s]`? -/
def isHyphenSpace (c : Char) : Bool := isPySpace c || c = '-'

/-- State machine for `re.sub(r'[-\s]+', '-', t)`: a maximal run of
whitespace/hyphen characters becomes a single hyphen (`inRun` tells whether we
are inside such a run). -/
def hyphenGo : Bool → Chars → Chars
  | _, [] => []
  | inRun, c :: rest =>
    if isHyphenSpace c then
      if inRun then hyphenGo true rest else '-' :: hyphenGo true rest
    else c :: hyphenGo false rest

/-- The document-id derivation of `generate_documents`
(`bulk_index_to_opensearch.py`, also inlined in
`generate_book_summaries.bulk_index_to_opensearch` and
`load_book_summary_to_opensearch`):
`re.sub(r'[^\w\s-]', '', title).strip()` then `re.sub(r'[-\s]+', '-', ·).lower()`. -/
def deriveId (title : Chars) : Chars :=
  (hyphenGo false (pyStrip (List.filter idKeepChar title))).map pyLower

/-- State machine for collapsing maximal whitespace runs to a single hyphen
(used only by the specification-side reference normalization). -/
def wsHyphenGo : Bool → Chars → Chars
  | _, [] => []
  | inRun, c :: rest =>
    if isPySpace c then
      if inRun then wsHyphenGo true rest else '-' :: wsHyphenGo true rest
    else c :: wsHyphenGo false rest

/-- Modelled from the spec: the reference normalization of section 4.6,
"the document identifier is derived deterministically from the book title
(lower-cased, non-word characters stripped, whitespace collapsed to hyphens)".
Lower-case first, strip characters that are neither word characters nor
whitespace, then collapse whitespace runs to single hyphens. -/
def spec_derive_id (title : Chars) : Chars :=
  wsHyphenGo false
    (List.filter (fun c => isWordChar c || isPySpace c) (title.map pyLower))

/-! ## Batch loop and checkpointing (`process_all_books_scalable`) -/

/-- The batches visited by `for i in range(0, len(book_keys), batch_size)`:
`keys[i:i+batch_size]` for each step.  The fuel argument is structural; any
fuel of at least `l.length` yields all batches (each step consumes at least
one element when `bs > 0`). -/
def batchesAux {α : Type} : Nat → List α → Nat → List (List α)
  | 0, _, _ => []
  | _, [], _ => []
  | fuel + 1, l, bs => l.take bs :: batchesAux fuel (l.drop bs) bs

/-- The batch decomposition of `process_all_books_scalable`.  A zero
`batch_size` would make Python's `range` raise, so it is mapped to no batches
(all theorems assume `0 < bs`). -/
def batches {α : Type} (l : List α) (bs : Nat) : List (List α) :=
  if bs = 0 then [] else batchesAux l.length l bs

/-- The per-batch body of `process_all_books_scalable` (lines 662-678):
`process_books_parallel` keeps the records of the books whose
`process_single_book` returned data (modelled by the `outcome` oracle;
`as_completed` collection order is abstracted as submission order), results
are accumulated, and — the checkpoint update — `processed_books` is extended
with `batch_keys` and saved.  Returns (successful records, checkpoint). -/
def process_all_books_scalable {R : Type} (outcome : String → Option R)
    (bookKeys : List String) (batchSize : Nat) (checkpoint0 : List String) :
    List R × List String :=
  (batches bookKeys batchSize).foldl
    (fun st batch => (st.1 ++ batch.filterMap outcome, st.2 ++ batch))
    ([], checkpoint0)

/-- Model of `process_books_parallel`: the success list collects exactly the books whose
`process_single_book` produced data (completion order abstracted as submission
order; the claims below only use membership). -/
def process_books_parallel {R : Type} (outcome : String → Option R)
    (bookKeys : List String) : List R :=
  bookKeys.filterMap outcome

/-- Resumability filter of `process_all_books_scalable` (lines 650-656):
drop the keys already recorded in the loaded checkpoint. -/
def filterCheckpoint (bookKeys processedBooks : List String) : List String :=
  bookKeys.filter (fun key => !processedBooks.contains key)

/-! ## `process_single_book` (embedding assembly and partial failure) -/

/-- Values stored in the `book_data` dictionary built by
`process_single_book`. -/
inductive FieldVal (V : Type) where
  | null : FieldVal V
  | str : String → FieldVal V
  | num : Nat → FieldVal V
  | strs : List String → FieldVal V
  | vec : List V → FieldVal V
deriving DecidableEq

/-- Association-list lookup (models Python `dict` access on the literal
dictionaries built by the scripts; keys in those literals are distinct). -/
def alookup {β : Type} : List (String × β) → String → Option β
  | [], _ => none
  | (k, v) :: rest, q => if k = q then some v else alookup rest q

/-- One step of the `for summary_type, summary_text in ...` embedding loop:
`embeddings[key] = embedding` only when the call returned a truthy (non-empty)
vector. -/
def addEmbedding {V : Type} (dict : List (String × List V)) (key : String)
    (result : Option (List V)) : List (String × List V) :=
  match result with
  | some v => if v.isEmpty then dict else dict ++ [(key, v)]
  | none => dict

/-- The genre prompt built by `process_single_book`. -/
def genrePrompt (title author : String) : String :=
  "Identify the primary literary genre(s) for \"" ++ title ++ "\" by " ++
    author ++ " based on the text and section summaries. Respond with a short phrase."

/-- Model of `BookSummaryGenerator.process_single_book`, with the external calls as
oracles: `download` is the S3 download (`None` on client error), `chunkSum`
is `_generate_chunk_summary` on a prompt/chunk text, `bookSum` is
`_generate_book_summary` (all three facets in one `try`, so all-or-nothing),
`embed` is `_generate_embedding`.  Embedding a missing (`None`) genre summary
is modelled as a failing call.  Returns `None` exactly when the source
returns `None` (book marked failed); the S3 upload side effect is dropped. -/
def process_single_book {V : Type}
    (download : Option String)
    (chunkSum : String → Option String)
    (bookSum : Option (String × String × String))
    (embed : String → Option (List V))
    (title author embeddingModelId summaryModelId generatedAt : String)
    (chunkSize overlap : Nat) : Option (List (String × FieldVal V)) :=
  match download with
  | none => none
  | some raw =>
    if raw = "" then none
    else
      let cleaned := clean_text raw.toList
      match chunk_text_large cleaned chunkSize overlap with
      | none => none
      | some chunks =>
        let chunkSummaries := chunks.filterMap fun c =>
          match chunkSum (String.mk c) with
          | some s => if s = "" then none else some s
          | none => none
        let genreSummary := chunkSum (genrePrompt title author)
        match bookSum with
        | none => none
        | some (plotS, thematicS, characterS) =>
          let genreStr := match genreSummary with
            | some g => g
            | none => "None"
          let combined :=
            plotS ++ "\n\n" ++ thematicS ++ "\n\n" ++ characterS ++ "\n\n" ++ genreStr
          let e1 := addEmbedding ([] : List (String × List V))
            "plot_summary_embedding" (embed plotS)
          let e2 := addEmbedding e1 "thematic_analysis_embedding" (embed thematicS)
          let e3 := addEmbedding e2 "character_summary_embedding" (embed characterS)
          let e4 := addEmbedding e3 "genre_embedding"
            (match genreSummary with
             | some g => embed g
             | none => none)
          let e5 := addEmbedding e4 "combined_embedding" (embed combined)
          some [
            ("book_title", FieldVal.str title),
            ("author", FieldVal.str author),
            ("plot_summary", FieldVal.str plotS),
            ("thematic_analysis", FieldVal.str thematicS),
            ("character_summary", FieldVal.str characterS),
            ("genre", match genreSummary with
              | some g => FieldVal.str g
              | none => FieldVal.null),
            ("combined_summary", FieldVal.str combined),
            ("total_chunks", FieldVal.num chunks.length),
            ("chunk_summaries", FieldVal.strs chunkSummaries),
            ("plot_embedding", FieldVal.vec ((alookup e5 "plot_summary_embedding").getD [])),
            ("thematic_embedding", FieldVal.vec ((alookup e5 "thematic_analysis_embedding").getD [])),
            ("character_embedding", FieldVal.vec ((alookup e5 "character_summary_embedding").getD [])),
            ("genre_embedding", FieldVal.vec ((alookup e5 "genre_embedding").getD [])),
            ("combined_embedding", FieldVal.vec ((alookup e5 "combined_embedding").getD [])),
            ("embedding_model_id", FieldVal.str embeddingModelId),
            ("summary_model_id", FieldVal.str summaryModelId),
            ("generated_at", FieldVal.str generatedAt)]

/-! ## Lambda handlers -/

/-- JSON values (the payloads moved through the HTTP boundary). -/
inductive Json where
  | null : Json
  | bool : Bool → Json
  | num : Int → Json
  | str : String → Json
  | arr : List Json → Json
  | obj : List (String × Json) → Json

/-- Python truthiness of a JSON value (`if not query:`). -/
def pyTruthy : Json → Bool
  | Json.null => false
  | Json.bool b => b
  | Json.num n => n ≠ 0
  | Json.str s => s ≠ ""
  | Json.arr l => !l.isEmpty
  | Json.obj l => !l.isEmpty

/-- Lambda responses: status code and JSON body. -/
structure LResp where
  statusCode : Nat
  body : Json

/-- Lookup of a key in a JSON object body (`none` for non-objects). -/
def jlookup : Json → String → Option Json
  | Json.obj kvs, k => alookup kvs k
  | _, _ => none

/-- The `lambda_handler` of `src/lambda/lambda_function.py` (multi-strategy
variant).  Oracles: `parse` is `json.loads` on the body string, `genEmbed` is
`generate_embedding` (raises on failure), `searchMulti`/`searchOne` are the
OpenSearch searches, `loadResult` and `checkIndexResp` the direct-invocation
actions.  Uncaught exceptions (non-string body, non-object JSON body, failed
embedding or search) hit the outer `except` and produce a 500 response. -/
def lambda_handler_multi
    (parse : String → Option Json)
    (genEmbed : Json → Except String Json)
    (searchMulti : Json → Json → Except String (List Json))
    (searchOne : Json → Json → Json → Except String (List Json))
    (loadResult : Json → Bool)
    (checkIndexResp : LResp)
    (event : List (String × Json)) : LResp :=
  let actionResp : Option LResp :=
    match alookup event "action" with
    | some (Json.str a) =>
      if a = "load_book_summary" then
        let ok := loadResult ((alookup event "book_summary_data").getD (Json.obj []))
        some ⟨if ok then 200 else 500, Json.obj [("success", Json.bool ok)]⟩
      else if a = "check_index" then some checkIndexResp
      else none
    | _ => none
  match actionResp with
  | some r => r
  | none =>
    match alookup event "body" with
    | some (Json.str bodyStr) =>
      match parse bodyStr with
      | none => ⟨400, Json.obj [("error", Json.str "Invalid JSON in request body")]⟩
      | some (Json.obj kvs) =>
        let query := (alookup kvs "query").getD (Json.str "")
        let size := (alookup kvs "size").getD (Json.num 5)
        let strategy := (alookup kvs "search_strategy").getD (Json.str "multi")
        if !pyTruthy query then
          ⟨400, Json.obj [("error", Json.str "Query parameter is required")]⟩
        else
          match genEmbed query with
          | Except.error e =>
            ⟨500, Json.obj [("error", Json.str ("Internal server error: " ++ e))]⟩
          | Except.ok emb =>
            let searched :=
              match strategy with
              | Json.str "multi" => searchMulti emb size
              | st => searchOne emb st size
            match searched with
            | Except.error e =>
              ⟨500, Json.obj [("error", Json.str ("Internal server error: " ++ e))]⟩
            | Except.ok rs =>
              ⟨200, Json.obj [("query", query), ("search_strategy", strategy),
                ("results", Json.arr rs), ("total_results", Json.num rs.length)]⟩
      | some _ => ⟨500, Json.obj [("error",
          Json.str "Internal server error: AttributeError")]⟩
    | some _ => ⟨500, Json.obj [("error",
        Json.str "Internal server error: TypeError")]⟩
    | none => ⟨400, Json.obj [("error", Json.str "Invalid request format")]⟩

/-- The 500 response of `lambda/lambda_function.py` (it carries both an
`error` and a `message` field). -/
def simpleErr500 (msg : String) : LResp :=
  ⟨500, Json.obj [("error", Json.str "Internal server error"),
    ("message", Json.str msg)]⟩

/-- The `lambda_handler` of `lambda/lambda_function.py` (single-index
variant).  `event['body']` may be a string (parsed as JSON) or already a
dictionary; a missing body key, unparsable JSON, non-object body, or failing
embedding/search raises into the outer `except` giving a 500.  `fmt` models
the per-hit formatting block. -/
def lambda_handler_simple
    (parse : String → Option Json)
    (genEmbed : Json → Except String Json)
    (searchO : Json → Json → Except String (List Json))
    (fmt : Json → Json)
    (event : List (String × Json)) : LResp :=
  match alookup event "body" with
  | none => simpleErr500 "KeyError"
  | some bodyVal =>
    let bodyE : Except String Json :=
      match bodyVal with
      | Json.str s =>
        match parse s with
        | some j => Except.ok j
        | none => Except.error "JSONDecodeError"
      | other => Except.ok other
    match bodyE with
    | Except.error e => simpleErr500 e
    | Except.ok body =>
      match body with
      | Json.obj kvs =>
        let queryText := (alookup kvs "query").getD Json.null
        let size := (alookup kvs "size").getD (Json.num 5)
        if !pyTruthy queryText then
          ⟨400, Json.obj [("error", Json.str "Query text is required")]⟩
        else
          match genEmbed queryText with
          | Except.error e => simpleErr500 e
          | Except.ok emb =>
            match searchO emb size with
            | Except.error e => simpleErr500 e
            | Except.ok hits =>
              ⟨200, Json.obj [("query", queryText),
                ("results", Json.arr (hits.map fmt)),
                ("total_results", Json.num hits.length)]⟩
      | _ => simpleErr500 "AttributeError"

/-! ## Multi-strategy search merging -/

/-- A search hit as assembled by `search_opensearch`.  Scores are modelled as
integers: the claims about merging depend only on their linear order. -/
structure SHit where
  book_title : String
  author : String
  score : Int
  strategy : String
deriving DecidableEq

/-- The deduplication key `f"{result['book_title']}_{result['author']}"`. -/
def hitKey (r : SHit) : String := r.book_title ++ "_" ++ r.author

/-- The four strategies tried by `search_opensearch_multi_strategy`. -/
def strategies : List String := ["combined", "plot", "thematic", "character"]

/-- The `for strategy in strategies` collection loop: a failing strategy
(`searchO s = none`, the inner `except`) is skipped; each result is tagged
with its strategy. -/
def allStrategyResults (searchO : String → Option (List SHit)) : List SHit :=
  strategies.foldl
    (fun acc s =>
      match searchO s with
      | some rs => acc ++ rs.map (fun r => { r with strategy := s })
      | none => acc)
    []

/-- The dedup-and-truncate loop of `search_opensearch_multi_strategy`:
walk the sorted results, skip keys already seen, and stop as soon as `size`
results have been collected (the length test runs after the append). -/
def dedupLoop (size : Nat) : List SHit → List String → List SHit → List SHit
  | [], _, acc => acc
  | r :: rest, seen, acc =>
    if hitKey r ∈ seen then dedupLoop size rest seen acc
    else
      let acc' := acc ++ [r]
      if size ≤ acc'.length then acc'
      else dedupLoop size rest (hitKey r :: seen) acc'

/-- Model of `search_opensearch_multi_strategy`: gather the four strategies' results,
sort by score descending (Python's stable `sorted(..., reverse=True)`), and
deduplicate by title/author key keeping at most `size` hits. -/
def search_opensearch_multi_strategy (searchO : String → Option (List SHit))
    (size : Nat) : List SHit :=
  let sortedHits :=
    (allStrategyResults searchO).mergeSort (fun a b => decide (b.score ≤ a.score))
  dedupLoop size sortedHits [] []

/-! ## Concrete inputs used by counterexamples and witnesses -/

/-- The raw text of the end-to-end scenario in the specification. -/
def gutenbergRaw : Chars :=
  ("*** START OF THE PROJECT GUTENBERG EBOOK ***\n\nHello world. Goodbye world.\n\n"
    ++ "*** END OF THE PROJECT GUTENBERG EBOOK ***").toList

/-- A text whose cleaned form still contains a start marker: the marker
`The Project Gutenberg eBook of` occurs twice, and only the first occurrence
is stripped by one application of `clean_text`. -/
def doubleMarkerText : Chars :=
  "The Project Gutenberg eBook of X\nThe Project Gutenberg eBook of Y\nZ".toList

/-- A text on the text `abcd.xyzzz` with `size = 6` and
`overlap = 5` the chunking loop is stuck at `start = 0`: the sentence-boundary search
moves the end to 5, and `start` is reset to `5 - 5 = 0` forever. -/
def stuckText : Chars := "abcd.xyzzz".toList

/-- Characters on which the code's id derivation and the reference
normalization agree char-wise: lowercase letters, digits, underscore, space. -/
def safeIdChars : Chars :=
  ['a', 'b', 'c', 'd', 'e', 'f', 'g', 'h', 'i', 'j', 'k', 'l', 'm', 'n', 'o', 'p',
   'q', 'r', 's', 't', 'u', 'v', 'w', 'x', 'y', 'z', '0', '1', '2', '3', '4', '5',
   '6', '7', '8', '9', '_', ' ']

/-! ## Helper lemmas about substring search and normalization -/

theorem containsSub_cons (c : Char) (rest pat : Chars) :
    containsSub (c :: rest) pat
      = (startsWith (c :: rest) pat || containsSub rest pat) := by
  have hunf : firstOcc (c :: rest) pat
      = if startsWith (c :: rest) pat then some 0
        else (firstOcc rest pat).map (· + 1) := rfl
  show (firstOcc (c :: rest) pat).isSome = _
  rw [hunf]
  cases h : startsWith (c :: rest) pat
  · cases hf : firstOcc rest pat <;> simp [h, hf, containsSub]
  · simp [h]

theorem containsSub_tail {c : Char} {rest pat : Chars}
    (h : containsSub (c :: rest) pat = false) : containsSub rest pat = false := by
  rw [containsSub_cons] at h
  exact (Bool.or_eq_false_iff.mp h).2

theorem startsWith_false_of_contains {c : Char} {rest pat : Chars}
    (h : containsSub (c :: rest) pat = false) : startsWith (c :: rest) pat = false := by
  rw [containsSub_cons] at h
  exact (Bool.or_eq_false_iff.mp h).1

theorem containsSub_append_left {y pat : Chars} (x : Chars)
    (h : containsSub (x ++ y) pat = false) : containsSub y pat = false := by
  induction x with
  | nil => exact h
  | cons c x' ih => exact ih (containsSub_tail h)

theorem cutStart_eq_self {t : Chars}
    (h1 : containsSub t startMarker1 = false)
    (h2 : containsSub t startMarker2 = false)
    (h3 : containsSub t startMarker3 = false) : cutStart t = t := by
  simp [cutStart, h1, h2, h3]

theorem cutEnd_eq_self {t : Chars}
    (h4 : containsSub t endMarker1 = false)
    (h5 : containsSub t endMarker2 = false) : cutEnd t = t := by
  simp [cutEnd, h4, h5]

theorem replCRLF_eq_self (t : Chars)
    (h : containsSub t ['\r', '\n'] = false) : replCRLF t = t := by
  induction t with
  | nil => rfl
  | cons c rest ih =>
    have hrest := containsSub_tail h
    have hsw := startsWith_false_of_contains h
    cases rest with
    | nil => rfl
    | cons c2 rest2 =>
      have hne : ¬(c = '\r' ∧ c2 = '\n') := by
        rintro ⟨e1, e2⟩
        subst e1; subst e2
        simp [startsWith] at hsw
      show (if c = '\r' ∧ c2 = '\n' then '\n' :: replCRLF rest2
            else c :: replCRLF (c2 :: rest2)) = c :: c2 :: rest2
      rw [if_neg hne, ih hrest]

theorem collapseGo_eq_self (t : Chars) : ∀ p, p ≤ 2 →
    containsSub (List.replicate p '\n' ++ t) ['\n', '\n', '\n'] = false →
    collapseGo p t = List.replicate p '\n' ++ t := by
  induction t with
  | nil =>
    intro p hp _
    simp [collapseGo, Nat.min_eq_left hp]
  | cons c rest ih =>
    intro p hp h
    have hunf : collapseGo p (c :: rest)
        = if c = '\n' then collapseGo (p + 1) rest
          else List.replicate (min p 2) '\n' ++ c :: collapseGo 0 rest := rfl
    by_cases hc : c = '\n'
    · subst hc
      have heq : List.replicate p '\n' ++ '\n' :: rest
          = List.replicate (p + 1) '\n' ++ rest := by
        rw [List.replicate_succ']
        simp
      have hp1 : p + 1 ≤ 2 := by
        by_contra hgt
        have hp2 : p = 2 := by omega
        subst hp2
        rw [heq] at h
        simp only [List.replicate, List.cons_append, List.nil_append] at h
        rw [containsSub_cons] at h
        simp [startsWith] at h
      have h' : containsSub (List.replicate (p + 1) '\n' ++ rest)
          ['\n', '\n', '\n'] = false := by rw [← heq]; exact h
      show collapseGo (p + 1) rest = _
      rw [ih (p + 1) hp1 h', heq]
    · have hrest : containsSub rest ['\n', '\n', '\n'] = false := by
        apply containsSub_append_left (List.replicate p '\n' ++ [c])
        rw [List.append_assoc]
        simpa using h
      have hres := ih 0 (by omega) (by simpa using hrest)
      rw [hunf, if_neg hc, Nat.min_eq_left hp]
      simpa using hres

theorem collapseNL_eq_self (t : Chars)
    (h : containsSub t ['\n', '\n', '\n'] = false) : collapseNL t = t := by
  simpa [collapseNL] using collapseGo_eq_self t 0 (by omega) (by simpa using h)

theorem dropWhile_head_false {p : Char → Bool} :
    ∀ (l : Chars) {c : Char} {cs : Chars}, l.dropWhile p = c :: cs → p c = false := by
  intro l
  induction l with
  | nil => intro c cs h; simp at h
  | cons a l ih =>
    intro c cs h
    rw [List.dropWhile_cons] at h
    split at h
    · exact ih h
    · cases h
      simp_all

theorem dropWhile_idem (p : Char → Bool) (l : Chars) :
    (l.dropWhile p).dropWhile p = l.dropWhile p := by
  cases h : l.dropWhile p with
  | nil => rfl
  | cons c cs =>
    rw [List.dropWhile_cons_of_neg]
    simp [dropWhile_head_false l h]

theorem stripR_stripR (l : Chars) : stripR (stripR l) = stripR l := by
  simp [stripR, dropWhile_idem]

theorem stripR_front (l : Chars) : stripR l <+: l := by
  have h : l.reverse.dropWhile isPySpace <:+ l.reverse := List.dropWhile_suffix isPySpace
  have h2 : (stripR l).reverse <:+ l.reverse := by
    simpa [stripR] using h
  exact List.reverse_suffix.mp h2

theorem stripL_pyStrip (m : Chars) : stripL (pyStrip m) = pyStrip m := by
  unfold pyStrip
  cases h : stripR (stripL m) with
  | nil => rfl
  | cons c cs =>
    have hpre : c :: cs <+: stripL m := h ▸ stripR_front (stripL m)
    obtain ⟨tail, htail⟩ := hpre
    have hcfalse : isPySpace c = false := by
      apply dropWhile_head_false m
      show m.dropWhile isPySpace = c :: (cs ++ tail)
      rw [show m.dropWhile isPySpace = stripL m from rfl, ← htail]
      rfl
    simp [stripL, List.dropWhile_cons, hcfalse]

theorem pyStrip_idem (m : Chars) : pyStrip (pyStrip m) = pyStrip m := by
  show stripR (stripL (pyStrip m)) = pyStrip m
  rw [stripL_pyStrip]
  show stripR (stripR (stripL m)) = pyStrip m
  rw [stripR_stripR]
  rfl

theorem mem_of_mem_stripL {a : Char} {l : Chars} (h : a ∈ stripL l) : a ∈ l :=
  (List.dropWhile_sublist _).subset h

theorem mem_of_mem_stripR {a : Char} {l : Chars} (h : a ∈ stripR l) : a ∈ l :=
  (stripR_front l).sublist.subset h

theorem mem_of_mem_pyStrip {a : Char} {l : Chars} (h : a ∈ pyStrip l) : a ∈ l :=
  mem_of_mem_stripL (mem_of_mem_stripR h)

theorem pyStrip_length_le (l : Chars) : (pyStrip l).length ≤ l.length :=
  Nat.le_trans ((stripR_front (stripL l)).sublist.length_le)
    (List.dropWhile_sublist _).length_le

/-- The fixed-point property of `clean_text`: on a text containing no start or
end marker, no `\r\n` pair, no run of three newlines, only allow-listed
characters, and no leading or trailing whitespace, `clean_text` is the
identity. -/
theorem clean_text_eq_self (t : Chars)
    (h1 : containsSub t startMarker1 = false)
    (h2 : containsSub t startMarker2 = false)
    (h3 : containsSub t startMarker3 = false)
    (h4 : containsSub t endMarker1 = false)
    (h5 : containsSub t endMarker2 = false)
    (h6 : containsSub t ['\r', '\n'] = false)
    (h7 : containsSub t ['\n', '\n', '\n'] = false)
    (h8 : t.all allowedChar = true)
    (h9 : pyStrip t = t) : clean_text t = t := by
  unfold clean_text
  rw [cutStart_eq_self h1 h2 h3, cutEnd_eq_self h4 h5, replCRLF_eq_self t h6,
    collapseNL_eq_self t h7, List.filter_eq_self.mpr, h9]
  intro a ha
  exact List.all_eq_true.mp h8 a ha

/-! ## C4: idempotence of `clean_text` -/

/-- C4 (counterexample): `clean_text` is not idempotent.  On
`doubleMarkerText` the first application strips only the first occurrence of
the marker `The Project Gutenberg eBook of`; the marker survives (its
characters are all allow-listed), so a second application strips again. -/
theorem C4_counterexample :
    clean_text (clean_text doubleMarkerText) ≠ clean_text doubleMarkerText := by
  decide

/-- C4 (amended): `clean_text` is idempotent on every text whose cleaned form
contains no start or end marker, no `\r\n` pair, and no run of three or more
newlines (one application already guarantees the output is filtered to the
character allow-list and stripped of outer whitespace; these extra conditions
rule out the ways a second pass can still rewrite). -/
theorem C4_clean_text_idempotent (t : Chars)
    (h1 : containsSub (clean_text t) startMarker1 = false)
    (h2 : containsSub (clean_text t) startMarker2 = false)
    (h3 : containsSub (clean_text t) startMarker3 = false)
    (h4 : containsSub (clean_text t) endMarker1 = false)
    (h5 : containsSub (clean_text t) endMarker2 = false)
    (h6 : containsSub (clean_text t) ['\r', '\n'] = false)
    (h7 : containsSub (clean_text t) ['\n', '\n', '\n'] = false) :
    clean_text (clean_text t) = clean_text t := by
  apply clean_text_eq_self _ h1 h2 h3 h4 h5 h6 h7
  · rw [List.all_eq_true]
    intro a ha
    unfold clean_text at ha
    exact (List.mem_filter.mp (mem_of_mem_pyStrip ha)).2
  · show pyStrip (clean_text t) = clean_text t
    unfold clean_text
    exact pyStrip_idem _

/-- C4 (witness): the idempotence theorem applied to the concrete scenario
text, all hypotheses checked by evaluation. -/
theorem C4_witness :
    containsSub (clean_text gutenbergRaw) startMarker1 = false ∧
    containsSub (clean_text gutenbergRaw) startMarker2 = false ∧
    containsSub (clean_text gutenbergRaw) startMarker3 = false ∧
    containsSub (clean_text gutenbergRaw) endMarker1 = false ∧
    containsSub (clean_text gutenbergRaw) endMarker2 = false ∧
    containsSub (clean_text gutenbergRaw) ['\r', '\n'] = false ∧
    containsSub (clean_text gutenbergRaw) ['\n', '\n', '\n'] = false ∧
    clean_text (clean_text gutenbergRaw) = clean_text gutenbergRaw :=
  ⟨by decide, by decide, by decide, by decide, by decide, by decide, by decide,
    C4_clean_text_idempotent gutenbergRaw (by decide) (by decide) (by decide)
      (by decide) (by decide) (by decide) (by decide)⟩

/-! ## C5: marker-free text passes through unchanged -/

/-- C5 (counterexample): a text containing no marker is not always returned
unchanged: `clean_text "*"` is the empty text, because the character filter
removes `*`. -/
theorem C5_counterexample : clean_text ("*".toList) ≠ "*".toList := by
  decide

/-- C5 (amended): if the text contains none of the recognized start or end
markers, the marker-stripping stages pass it through unchanged and no error
occurs; the text still undergoes the whitespace/character normalization, so
the overall result is exactly the normalization of the input. -/
theorem C5_clean_no_marker (t : Chars)
    (h1 : containsSub t startMarker1 = false)
    (h2 : containsSub t startMarker2 = false)
    (h3 : containsSub t startMarker3 = false)
    (h4 : containsSub t endMarker1 = false)
    (h5 : containsSub t endMarker2 = false) :
    cutStart t = t ∧ cutEnd t = t ∧
      clean_text t = pyStrip (List.filter allowedChar (collapseNL (replCRLF t))) := by
  refine ⟨cutStart_eq_self h1 h2 h3, cutEnd_eq_self h4 h5, ?_⟩
  unfold clean_text
  rw [cutStart_eq_self h1 h2 h3, cutEnd_eq_self h4 h5]

/-- C5 (witness): the marker-free pass-through theorem applied to a concrete
text, hypotheses checked by evaluation. -/
theorem C5_witness :
    containsSub ("Hello world.".toList) startMarker1 = false ∧
    containsSub ("Hello world.".toList) startMarker2 = false ∧
    containsSub ("Hello world.".toList) startMarker3 = false ∧
    containsSub ("Hello world.".toList) endMarker1 = false ∧
    containsSub ("Hello world.".toList) endMarker2 = false ∧
    (cutStart ("Hello world.".toList) = "Hello world.".toList ∧
      cutEnd ("Hello world.".toList) = "Hello world.".toList ∧
      clean_text ("Hello world.".toList)
        = pyStrip (List.filter allowedChar (collapseNL (replCRLF ("Hello world.".toList))))) :=
  ⟨by decide, by decide, by decide, by decide, by decide,
    C5_clean_no_marker _ (by decide) (by decide) (by decide) (by decide) (by decide)⟩

/-! ## C7: the end-to-end cleaning and chunking scenario -/

/-- C7 (counterexample): on the scenario input, `chunk_text_large` with
`size = 15` and `overlap = 2` returns three chunks, not two as claimed. -/
theorem C7_counterexample :
    (chunk_text_large (clean_text gutenbergRaw) 15 2).map List.length ≠ some 2 := by
  decide

/-- C7 (amended): `clean_text` on the scenario input yields exactly
`Hello world. Goodbye world.`, and `chunk_text_large` on that cleaned text
with `size = 15`, `overlap = 2` yields exactly three chunks, the first of
which breaks at the sentence boundary after `Hello world.`. -/
theorem C7_scenario :
    clean_text gutenbergRaw = "Hello world. Goodbye world.".toList ∧
    chunk_text_large ("Hello world. Goodbye world.".toList) 15 2
      = some ["Hello world.".toList, "d. Goodbye worl".toList, "rld.".toList] :=
  ⟨by decide, by decide⟩

/-! ## Helper lemmas about slicing and chunk boundaries -/

theorem resolveIdx_le (n : Nat) (i : Int) : resolveIdx n i ≤ n := by
  unfold resolveIdx
  split_ifs <;> omega

theorem resolveIdx_add_le (n : Nat) (a : Int) (k : Nat) :
    resolveIdx n (a + k) ≤ resolveIdx n a + k := by
  unfold resolveIdx
  split_ifs <;> omega

theorem resolveIdx_of_nonneg_le (n : Nat) (i : Int) (h0 : 0 ≤ i) (h1 : i ≤ n) :
    resolveIdx n i = i.toNat := by
  unfold resolveIdx
  split_ifs <;> omega

theorem resolveIdx_le_toNat (n : Nat) (i : Int) (h : 0 ≤ i) :
    resolveIdx n i ≤ i.toNat := by
  unfold resolveIdx
  split_ifs <;> omega

theorem length_pySlice_le (t : Chars) (a b : Int) :
    (pySlice t a b).length ≤ resolveIdx t.length b - resolveIdx t.length a := by
  simp only [pySlice, List.length_take, List.length_drop]
  omega

theorem lastOcc_bounds {t pat : Chars} {a b j : Nat}
    (h : lastOcc t pat a b = some j) : a ≤ j ∧ j + pat.length ≤ b := by
  have hmem := List.mem_of_getLast?_eq_some h
  rw [List.mem_filter] at hmem
  obtain ⟨-, hcond⟩ := hmem
  simp only [Bool.and_eq_true, decide_eq_true_eq] at hcond
  exact ⟨hcond.1.1, hcond.1.2⟩

theorem pyRfind_cases (t pat : Chars) (a b : Int) :
    pyRfind t pat a b = -1 ∨
      (0 ≤ pyRfind t pat a b ∧
        (resolveIdx t.length a : Int) ≤ pyRfind t pat a b ∧
        pyRfind t pat a b + pat.length ≤ (resolveIdx t.length b : Int)) := by
  unfold pyRfind
  cases h : lastOcc t pat (resolveIdx t.length a) (resolveIdx t.length b) with
  | none => exact Or.inl rfl
  | some j =>
    obtain ⟨hj1, hj2⟩ := lastOcc_bounds h
    dsimp only
    exact Or.inr ⟨by omega, by exact_mod_cast hj1, by exact_mod_cast hj2⟩

/-- The selected chunk end never precedes `start + overlap + 1` while the
cursor is inside the text, provided the overlap is below the half-window
slack: the boundary search only accepts positions strictly past
`start + size / 2`. -/
theorem chunkEnd_lb (t : Chars) (size overlap : Nat) (start : Int)
    (hsz : overlap < size) (hov : overlap ≤ size / 2 + 1) :
    start + overlap + 1 ≤ chunkEnd t size start := by
  simp only [chunkEnd]
  split_ifs <;> omega

/-- Every chunk sliced by the loop has length at most `size`: the proposed end
`start + size` is only ever moved left (to an occurrence inside the window),
and stripping only shortens. -/
theorem chunk_slice_le (t : Chars) (size : Nat) (start : Int) (hsz : 0 < size) :
    (pyStrip (pySlice t start (chunkEnd t size start))).length ≤ size := by
  refine Nat.le_trans (pyStrip_length_le _) ?_
  have hA := resolveIdx_le t.length start
  have hB := resolveIdx_le t.length (start + (size : Int))
  have hAB := resolveIdx_add_le t.length start size
  simp only [chunkEnd]
  split_ifs with hl hp hd hb hq
  · rcases pyRfind_cases t ['\n', '\n'] start (start + (size : Int)) with hneg | ⟨h0, hlo, hhi⟩
    · rw [hneg]
      have h1 := length_pySlice_le t start (-1 + 2)
      have h2 := resolveIdx_le_toNat t.length (-1 + 2) (by omega)
      omega
    · have h1 := length_pySlice_le t start (pyRfind t ['\n', '\n'] start (start + (size : Int)) + 2)
      have h2 := resolveIdx_of_nonneg_le t.length
        (pyRfind t ['\n', '\n'] start (start + (size : Int)) + 2) (by omega)
        (by simp only [List.length_cons, List.length_nil] at hhi; omega)
      simp only [List.length_cons, List.length_nil] at hhi
      omega
  · rcases pyRfind_cases t ['.'] start (start + (size : Int)) with hneg | ⟨h0, hlo, hhi⟩
    · rw [hneg]
      have h1 := length_pySlice_le t start (-1 + 1)
      have h2 := resolveIdx_le_toNat t.length (-1 + 1) (by omega)
      omega
    · have h1 := length_pySlice_le t start (pyRfind t ['.'] start (start + (size : Int)) + 1)
      have h2 := resolveIdx_of_nonneg_le t.length
        (pyRfind t ['.'] start (start + (size : Int)) + 1) (by omega)
        (by simp only [List.length_cons, List.length_nil] at hhi; omega)
      simp only [List.length_cons, List.length_nil] at hhi
      omega
  · rcases pyRfind_cases t ['!'] start (start + (size : Int)) with hneg | ⟨h0, hlo, hhi⟩
    · rw [hneg]
      have h1 := length_pySlice_le t start (-1 + 1)
      have h2 := resolveIdx_le_toNat t.length (-1 + 1) (by omega)
      omega
    · have h1 := length_pySlice_le t start (pyRfind t ['!'] start (start + (size : Int)) + 1)
      have h2 := resolveIdx_of_nonneg_le t.length
        (pyRfind t ['!'] start (start + (size : Int)) + 1) (by omega)
        (by simp only [List.length_cons, List.length_nil] at hhi; omega)
      simp only [List.length_cons, List.length_nil] at hhi
      omega
  · rcases pyRfind_cases t ['?'] start (start + (size : Int)) with hneg | ⟨h0, hlo, hhi⟩
    · rw [hneg]
      have h1 := length_pySlice_le t start (-1 + 1)
      have h2 := resolveIdx_le_toNat t.length (-1 + 1) (by omega)
      omega
    · have h1 := length_pySlice_le t start (pyRfind t ['?'] start (start + (size : Int)) + 1)
      have h2 := resolveIdx_of_nonneg_le t.length
        (pyRfind t ['?'] start (start + (size : Int)) + 1) (by omega)
        (by simp only [List.length_cons, List.length_nil] at hhi; omega)
      simp only [List.length_cons, List.length_nil] at hhi
      omega
  · have h1 := length_pySlice_le t start (start + (size : Int))
    omega
  · have h1 := length_pySlice_le t start (start + (size : Int))
    omega

/-! ## C1: termination of the chunking loop -/

theorem chunkLoop_isSome (t : Chars) (size overlap : Nat)
    (hsz : overlap < size) (hov : overlap ≤ size / 2 + 1) :
    ∀ (fuel : Nat) (start : Int) (acc : List Chars),
      1 ≤ fuel → (t.length : Int) + 1 ≤ start + fuel →
      (chunkLoop t size overlap fuel start acc).isSome = true := by
  intro fuel
  induction fuel with
  | zero => intro start acc h1 _; omega
  | succ f ih =>
    intro start acc _ hbound
    show (if start < (t.length : Int) then
      chunkLoop t size overlap f (chunkEnd t size start - (overlap : Int))
        (if (pyStrip (pySlice t start (chunkEnd t size start))).isEmpty then acc
         else acc ++ [pyStrip (pySlice t start (chunkEnd t size start))]) else some acc).isSome
      = true
    split
    · rename_i hlt
      have hend := chunkEnd_lb t size overlap start hsz hov
      apply ih
      · omega
      · push_cast at hbound ⊢
        omega
    · rfl

theorem chunkLoop_stuck : ∀ (fuel : Nat) (acc : List Chars),
    chunkLoop stuckText 6 5 fuel 0 acc = none := by
  intro fuel
  induction fuel with
  | zero => intro acc; rfl
  | succ f ih =>
    intro acc
    have hstep : chunkLoop stuckText 6 5 (f + 1) 0 acc
        = chunkLoop stuckText 6 5 f 0 (acc ++ ["abcd.".toList]) := rfl
    rw [hstep]
    exact ih _

/-- C1 (counterexample): `chunk_text_large` does not terminate for every
`overlap < size`: with text `abcd.xyzzz`, `size = 6` and `overlap = 5`
(which satisfies `0 ≤ 5 < 6`) the loop never finishes, for any fuel. -/
theorem C1_counterexample : ¬ chunkTerminates stuckText 6 5 := by
  rintro ⟨fuel, cs, h⟩
  rw [chunkLoop_stuck fuel []] at h
  exact Option.noConfusion h

/-- C1 (amended): for every text, every `size > 0`, and every overlap with
`0 ≤ overlap < size` that also satisfies `overlap ≤ size / 2 + 1` (the
boundary search can move the chunk end back to `start + size / 2 + 2`, so this
is the exact slack that keeps `start = end - overlap` advancing),
`chunk_text_large` terminates with a finite list of chunks. -/
theorem C1_chunk_terminates (t : Chars) (size overlap : Nat)
    (hpos : 0 < size) (hlt : overlap < size) (hov : overlap ≤ size / 2 + 1) :
    chunkTerminates t size overlap := by
  have h := chunkLoop_isSome t size overlap hlt hov (t.length + 1) 0 []
    (by omega) (by push_cast; omega)
  obtain ⟨cs, hcs⟩ := Option.isSome_iff_exists.mp h
  exact ⟨t.length + 1, cs, hcs⟩

/-- C1 (witness): the termination theorem applied at text `hello world`,
`size = 5`, `overlap = 2`. -/
theorem C1_witness :
    0 < 5 ∧ 2 < 5 ∧ 2 ≤ 5 / 2 + 1 ∧ chunkTerminates ("hello world".toList) 5 2 :=
  ⟨by decide, by decide, by decide,
    C1_chunk_terminates ("hello world".toList) 5 2 (by decide) (by decide) (by decide)⟩

/-! ## C6: chunks are bounded by the requested size -/

theorem chunkLoop_len (t : Chars) (size overlap : Nat) (hsz : 0 < size) :
    ∀ (fuel : Nat) (start : Int) (acc cs : List Chars),
      (∀ c ∈ acc, c.length ≤ size) →
      chunkLoop t size overlap fuel start acc = some cs →
      ∀ c ∈ cs, c.length ≤ size := by
  intro fuel
  induction fuel with
  | zero => intro start acc cs _ h; exact Option.noConfusion h
  | succ f ih =>
    intro start acc cs hacc h
    rw [show chunkLoop t size overlap (f + 1) start acc
      = if start < (t.length : Int) then
          chunkLoop t size overlap f (chunkEnd t size start - (overlap : Int))
            (if (pyStrip (pySlice t start (chunkEnd t size start))).isEmpty then acc
             else acc ++ [pyStrip (pySlice t start (chunkEnd t size start))])
        else some acc from rfl] at h
    split at h
    · refine ih _ _ _ ?_ h
      split
      · exact hacc
      · intro c hc
        rcases List.mem_append.mp hc with h1 | h2
        · exact hacc c h1
        · rw [List.mem_singleton.mp h2]
          exact chunk_slice_le t size start hsz
    · cases h
      exact hacc

/-- C6 (confirmed): for every text, every `size > 0` and every
`0 ≤ overlap < size`, every chunk produced by `chunk_text_large` has length
at most `size`: the proposed end `start + size` is only ever moved left by the
boundary search, and stripping only shortens the slice. -/
theorem C6_chunk_length_le (t : Chars) (size overlap : Nat) (cs : List Chars)
    (hpos : 0 < size) (hlt : overlap < size)
    (h : chunk_text_large t size overlap = some cs) :
    ∀ c ∈ cs, c.length ≤ size :=
  chunkLoop_len t size overlap hpos (t.length + 1) 0 [] cs (by simp) h

/-- C6 (witness): the bound applied to the scenario text with `size = 15`,
`overlap = 2`. -/
theorem C6_witness :
    0 < 15 ∧ 2 < 15 ∧
    chunk_text_large ("Hello world. Goodbye world.".toList) 15 2
      = some ["Hello world.".toList, "d. Goodbye worl".toList, "rld.".toList] ∧
    ∀ c ∈ ["Hello world.".toList, "d. Goodbye worl".toList, "rld.".toList],
      List.length c ≤ 15 :=
  ⟨by decide, by decide, by decide,
    C6_chunk_length_le ("Hello world. Goodbye world.".toList) 15 2
      ["Hello world.".toList, "d. Goodbye worl".toList, "rld.".toList]
      (by decide) (by decide) (by decide)⟩

/-! ## C3: checkpoint contents after each batch -/

theorem batchesAux_join {α : Type} :
    ∀ (fuel : Nat) (l : List α) (bs : Nat), 0 < bs → l.length ≤ fuel →
      (batchesAux fuel l bs).flatten = l := by
  intro fuel
  induction fuel with
  | zero =>
    intro l bs _ hlen
    have : l = [] := List.length_eq_zero.mp (by omega)
    subst this
    rfl
  | succ f ih =>
    intro l bs hbs hlen
    cases l with
    | nil => rfl
    | cons c l' =>
      have hd : ((c :: l').drop bs).length ≤ f := by
        simp only [List.length_drop, List.length_cons]
        simp only [List.length_cons] at hlen
        omega
      show ((c :: l').take bs :: batchesAux f ((c :: l').drop bs) bs).flatten = c :: l'
      rw [List.flatten_cons, ih ((c :: l').drop bs) bs hbs hd, List.take_append_drop]

theorem batches_join {α : Type} (l : List α) (bs : Nat) (hbs : 0 < bs) :
    (batches l bs).flatten = l := by
  unfold batches
  rw [if_neg (by omega)]
  exact batchesAux_join l.length l bs hbs (Nat.le_refl _)

theorem foldl_batches_snd {R : Type} (outcome : String → Option R) :
    ∀ (bl : List (List String)) (acc : List R) (ck : List String),
      (bl.foldl (fun st batch => (st.1 ++ batch.filterMap outcome, st.2 ++ batch))
        (acc, ck)).2 = ck ++ bl.flatten := by
  intro bl
  induction bl with
  | nil => intro acc ck; simp
  | cons b bl' ih =>
    intro acc ck
    show (bl'.foldl _ (acc ++ b.filterMap outcome, ck ++ b)).2 = _
    rw [ih, List.flatten_cons, List.append_assoc]

/-- C3 (counterexample): the checkpoint does not record only the successful
books.  With books `a` (succeeds) and `b` (fails) in one batch of size 2, the
checkpoint after the batch is `[a, b]` — the failed `b` is appended too,
because the source extends `processed_books` with `batch_keys`. -/
theorem C3_counterexample :
    (fun k => if k = "a" then some 0 else none) "b" = (none : Option Nat) ∧
    (process_all_books_scalable (fun k => if k = "a" then some 0 else none)
      ["a", "b"] 2 []).1 = [0] ∧
    (process_all_books_scalable (fun k => if k = "a" then some 0 else none)
      ["a", "b"] 2 []).2 = ["a", "b"] := by
  refine ⟨rfl, by decide, by decide⟩

/-- C3 (amended): after each batch of `process_all_books_scalable`, ALL
identifiers of that batch — of succeeded and of failed books alike — are
appended to the persisted checkpoint; after the whole run the checkpoint
equals the prior checkpoint followed by every processed key. -/
theorem C3_checkpoint_appends_batch_keys {R : Type} (outcome : String → Option R)
    (bookKeys : List String) (batchSize : Nat) (checkpoint0 : List String)
    (hbs : 0 < batchSize) :
    (process_all_books_scalable outcome bookKeys batchSize checkpoint0).2
      = checkpoint0 ++ bookKeys := by
  unfold process_all_books_scalable
  rw [foldl_batches_snd, batches_join bookKeys batchSize hbs]

/-- C3 (witness): the amended checkpoint theorem applied to a concrete run. -/
theorem C3_witness :
    0 < 2 ∧
    (process_all_books_scalable (fun k => if k = "a" then some (0 : Nat) else none)
      ["a", "b", "c"] 2 ["z"]).2 = ["z"] ++ ["a", "b", "c"] :=
  ⟨by decide,
    C3_checkpoint_appends_batch_keys (fun k => if k = "a" then some (0 : Nat) else none)
      ["a", "b", "c"] 2 ["z"] (by decide)⟩

/-! ## C2: partial embedding failure keeps the book, with an empty field -/

theorem alookup_append_one_ne {β : Type} (dict : List (String × β)) (key : String)
    (v : β) (k : String) (h : ¬ key = k) :
    alookup (dict ++ [(key, v)]) k = alookup dict k := by
  induction dict with
  | nil =>
    show (if key = k then some v else alookup [] k) = none
    rw [if_neg h]
    rfl
  | cons p dict ih =>
    show (if p.1 = k then some p.2 else alookup (dict ++ [(key, v)]) k)
      = if p.1 = k then some p.2 else alookup dict k
    rw [ih]

theorem alookup_addEmbedding_ne {V : Type} (dict : List (String × List V))
    (key : String) (r : Option (List V)) (k : String) (h : ¬ key = k) :
    alookup (addEmbedding dict key r) k = alookup dict k := by
  cases r with
  | none => rfl
  | some v =>
    show alookup (if v.isEmpty then dict else dict ++ [(key, v)]) k = alookup dict k
    split
    · rfl
    · exact alookup_append_one_ne dict key v k h


theorem addEmbedding_none {V : Type} (dict : List (String × List V)) (key : String) :
    addEmbedding dict key none = dict := rfl

theorem addEmbedding_some_ne_nil {V : Type} (dict : List (String × List V))
    (key : String) (v : List V) (h : v.isEmpty = false) :
    addEmbedding dict key (some v) = dict ++ [(key, v)] := by
  simp [addEmbedding, h]

theorem process_books_parallel_singleton {R : Type} (f : String → Option R)
    (k : String) (r : R) (h : f k = some r) : process_books_parallel f [k] = [r] := by
  simp [process_books_parallel, h]

/-- C2 (amended): if, while processing one book, the embedding call fails for
the character facet but succeeds (with non-empty vectors) for the plot and
thematic facets, the resulting record still CONTAINS the `character_embedding`
field, holding the empty list (the record literal always lists the key, with
`embeddings.get(..., [])` as value) — the field is not omitted — while
`plot_embedding` and `thematic_embedding` hold the returned vectors, and the
book is still returned in the success list rather than marked failed. -/
theorem C2_partial_embedding {V : Type}
    (chunkSum : String → Option String) (embed : String → Option (List V))
    (title author em sm ga : String) (chunkSize overlap : Nat)
    (raw plotS thematicS characterS : String) (vp vt : List V) (chunks : List Chars)
    (hraw : ¬ raw = "")
    (hchunk : chunk_text_large (clean_text raw.toList) chunkSize overlap = some chunks)
    (hep : embed plotS = some vp) (hvp : vp.isEmpty = false)
    (het : embed thematicS = some vt) (hvt : vt.isEmpty = false)
    (hec : embed characterS = none) :
    ∃ bd, process_single_book (some raw) chunkSum (some (plotS, thematicS, characterS))
        embed title author em sm ga chunkSize overlap = some bd ∧
      alookup bd "plot_embedding" = some (FieldVal.vec vp) ∧
      alookup bd "thematic_embedding" = some (FieldVal.vec vt) ∧
      alookup bd "character_embedding" = some (FieldVal.vec ([] : List V)) ∧
      process_books_parallel (fun _ => process_single_book (some raw) chunkSum
        (some (plotS, thematicS, characterS)) embed title author em sm ga chunkSize overlap)
        ["k"] = [bd] := by
  simp only [process_single_book, process_books_parallel, List.filterMap_cons]
  rw [if_neg hraw, hchunk]
  refine ⟨_, rfl, ?_, ?_, ?_, ?_⟩
  · simp [alookup, alookup_addEmbedding_ne, hep, het, hec, hvp, hvt,
      addEmbedding_none, addEmbedding_some_ne_nil]
  · simp [alookup, alookup_addEmbedding_ne, hep, het, hec, hvp, hvt,
      addEmbedding_none, addEmbedding_some_ne_nil]
  · simp [alookup, alookup_addEmbedding_ne, hep, het, hec, hvp, hvt,
      addEmbedding_none, addEmbedding_some_ne_nil]
  · rfl

/-- C2 (counterexample): the record does not OMIT the `character_embedding`
field when the character-facet embedding call fails — the key is present, with
the empty list as value (while `plot_embedding` carries its vector). -/
theorem C2_counterexample :
    (process_single_book (some "Hello.") (fun _ => none) (some ("P", "T", "C"))
        (fun s => if s = "P" then some [1] else if s = "T" then some [2] else none)
        "t" "a" "em" "sm" "ga" 100 0).map
      (fun bd => (alookup bd "character_embedding", alookup bd "plot_embedding"))
      = some (some (FieldVal.vec ([] : List Nat)), some (FieldVal.vec [1])) := by
  decide

/-- C2 (witness): the partial-failure theorem applied to a concrete book whose
character embedding fails while plot and thematic succeed. -/
theorem C2_witness :
    ∃ bd, process_single_book (some "Hello.") (fun _ => none) (some ("P", "T", "C"))
        (fun s => if s = "P" then some [1] else if s = "T" then some [2] else none)
        "t" "a" "em" "sm" "ga" 100 0 = some bd ∧
      alookup bd "plot_embedding" = some (FieldVal.vec [1]) ∧
      alookup bd "thematic_embedding" = some (FieldVal.vec [2]) ∧
      alookup bd "character_embedding" = some (FieldVal.vec ([] : List Nat)) ∧
      process_books_parallel (fun _ => process_single_book (some "Hello.") (fun _ => none)
        (some ("P", "T", "C"))
        (fun s => if s = "P" then some [1] else if s = "T" then some [2] else none)
        "t" "a" "em" "sm" "ga" 100 0) ["k"] = [bd] :=
  C2_partial_embedding (fun _ => none)
    (fun s => if s = "P" then some [1] else if s = "T" then some [2] else none)
    "t" "a" "em" "sm" "ga" 100 0 "Hello." "P" "T" "C" [1] [2] ["Hello.".toList]
    (by decide) (by decide) (by decide) (by decide) (by decide) (by decide) (by decide)

/-! ## C9: missing `query` yields a 400 response with an error field -/

/-- C9 (confirmed): for every HTTP request event (an event carrying a `body`
string and no direct-invocation `action`) whose parsed JSON body is an object
without a `query` field, both lambda handlers return status 400 with an
`error` field in the response body. -/
theorem C9_missing_query_400
    (parse : String → Option Json)
    (genEmbed : Json → Except String Json)
    (searchMulti : Json → Json → Except String (List Json))
    (searchOne : Json → Json → Json → Except String (List Json))
    (loadResult : Json → Bool) (checkIndexResp : LResp)
    (searchO : Json → Json → Except String (List Json)) (fmt : Json → Json)
    (event : List (String × Json)) (bodyStr : String) (kvs : List (String × Json))
    (hact : alookup event "action" = none)
    (hbody : alookup event "body" = some (Json.str bodyStr))
    (hparse : parse bodyStr = some (Json.obj kvs))
    (hq : alookup kvs "query" = none) :
    ((lambda_handler_multi parse genEmbed searchMulti searchOne loadResult
        checkIndexResp event).statusCode = 400 ∧
      jlookup (lambda_handler_multi parse genEmbed searchMulti searchOne loadResult
        checkIndexResp event).body "error"
        = some (Json.str "Query parameter is required")) ∧
    ((lambda_handler_simple parse genEmbed searchO fmt event).statusCode = 400 ∧
      jlookup (lambda_handler_simple parse genEmbed searchO fmt event).body "error"
        = some (Json.str "Query text is required")) := by
  constructor
  · constructor <;>
      simp [lambda_handler_multi, hact, hbody, hparse, hq, pyTruthy, jlookup, alookup]
  · constructor <;>
      simp [lambda_handler_simple, hbody, hparse, hq, pyTruthy, jlookup, alookup]

/-- C9 (witness): the 400 theorem applied to the concrete event
`{"body": "{}"}` with a parser returning the empty JSON object. -/
theorem C9_witness :
    ((lambda_handler_multi (fun _ => some (Json.obj [])) (fun _ => Except.error "e")
        (fun _ _ => Except.error "e") (fun _ _ _ => Except.error "e") (fun _ => false)
        ⟨200, Json.null⟩ [("body", Json.str "nobody")]).statusCode = 400 ∧
      jlookup (lambda_handler_multi (fun _ => some (Json.obj [])) (fun _ => Except.error "e")
        (fun _ _ => Except.error "e") (fun _ _ _ => Except.error "e") (fun _ => false)
        ⟨200, Json.null⟩ [("body", Json.str "nobody")]).body "error"
        = some (Json.str "Query parameter is required")) ∧
    ((lambda_handler_simple (fun _ => some (Json.obj [])) (fun _ => Except.error "e")
        (fun _ _ => Except.error "e") (fun j => j) [("body", Json.str "nobody")]).statusCode = 400 ∧
      jlookup (lambda_handler_simple (fun _ => some (Json.obj [])) (fun _ => Except.error "e")
        (fun _ _ => Except.error "e") (fun j => j) [("body", Json.str "nobody")]).body "error"
        = some (Json.str "Query text is required")) :=
  C9_missing_query_400 (fun _ => some (Json.obj [])) (fun _ => Except.error "e")
    (fun _ _ => Except.error "e") (fun _ _ _ => Except.error "e") (fun _ => false)
    ⟨200, Json.null⟩ (fun _ _ => Except.error "e") (fun j => j)
    [("body", Json.str "nobody")] "nobody" [] rfl rfl rfl rfl

/-! ## C8: the derived document identifier vs the reference normalization -/

theorem safe_pyLower {c : Char} (h : c ∈ safeIdChars) : pyLower c = c := by
  simp only [safeIdChars, List.mem_cons, List.not_mem_nil, or_false] at h
  rcases h with rfl|rfl|rfl|rfl|rfl|rfl|rfl|rfl|rfl|rfl|rfl|rfl|rfl|rfl|rfl|rfl|rfl|rfl|rfl|rfl|rfl|rfl|rfl|rfl|rfl|rfl|rfl|rfl|rfl|rfl|rfl|rfl|rfl|rfl|rfl|rfl|rfl|rfl <;> rfl

theorem safe_keep {c : Char} (h : c ∈ safeIdChars) : idKeepChar c = true := by
  simp only [safeIdChars, List.mem_cons, List.not_mem_nil, or_false] at h
  rcases h with rfl|rfl|rfl|rfl|rfl|rfl|rfl|rfl|rfl|rfl|rfl|rfl|rfl|rfl|rfl|rfl|rfl|rfl|rfl|rfl|rfl|rfl|rfl|rfl|rfl|rfl|rfl|rfl|rfl|rfl|rfl|rfl|rfl|rfl|rfl|rfl|rfl|rfl <;> rfl

theorem safe_wordOrSpace {c : Char} (h : c ∈ safeIdChars) :
    (isWordChar c || isPySpace c) = true := by
  simp only [safeIdChars, List.mem_cons, List.not_mem_nil, or_false] at h
  rcases h with rfl|rfl|rfl|rfl|rfl|rfl|rfl|rfl|rfl|rfl|rfl|rfl|rfl|rfl|rfl|rfl|rfl|rfl|rfl|rfl|rfl|rfl|rfl|rfl|rfl|rfl|rfl|rfl|rfl|rfl|rfl|rfl|rfl|rfl|rfl|rfl|rfl|rfl <;> rfl

theorem safe_ne_hyphen {c : Char} (h : c ∈ safeIdChars) : ¬ c = '-' := by
  simp only [safeIdChars, List.mem_cons, List.not_mem_nil, or_false] at h
  rcases h with rfl|rfl|rfl|rfl|rfl|rfl|rfl|rfl|rfl|rfl|rfl|rfl|rfl|rfl|rfl|rfl|rfl|rfl|rfl|rfl|rfl|rfl|rfl|rfl|rfl|rfl|rfl|rfl|rfl|rfl|rfl|rfl|rfl|rfl|rfl|rfl|rfl|rfl <;> decide

theorem map_id_of_mem {f : Char → Char} :
    ∀ (l : Chars), (∀ c ∈ l, f c = c) → l.map f = l := by
  intro l
  induction l with
  | nil => intro _; rfl
  | cons c rest ih =>
    intro h
    show f c :: rest.map f = c :: rest
    rw [h c (List.mem_cons_self c rest), ih (fun x hx => h x (List.mem_cons_of_mem c hx))]

theorem mem_hyphenGo : ∀ (l : Chars) (b : Bool) (c : Char),
    c ∈ hyphenGo b l → c = '-' ∨ c ∈ l := by
  intro l
  induction l with
  | nil => intro b c h; simp [hyphenGo] at h
  | cons a rest ih =>
    intro b c h
    by_cases ha : isHyphenSpace a
    · cases b
      · have h' : c ∈ '-' :: hyphenGo true rest := by simpa [hyphenGo, ha] using h
        rcases List.mem_cons.mp h' with rfl | h2
        · exact Or.inl rfl
        · rcases ih true c h2 with h3 | h3
          · exact Or.inl h3
          · exact Or.inr (List.mem_cons_of_mem a h3)
      · have h' : c ∈ hyphenGo true rest := by simpa [hyphenGo, ha] using h
        rcases ih true c h' with h3 | h3
        · exact Or.inl h3
        · exact Or.inr (List.mem_cons_of_mem a h3)
    · have h' : c ∈ a :: hyphenGo false rest := by simpa [hyphenGo, ha] using h
      rcases List.mem_cons.mp h' with rfl | h2
      · exact Or.inr (List.mem_cons_self _ _)
      · rcases ih false c h2 with h3 | h3
        · exact Or.inl h3
        · exact Or.inr (List.mem_cons_of_mem a h3)

theorem hyphenGo_eq_ws : ∀ (l : Chars) (b : Bool),
    (∀ c ∈ l, ¬ c = '-') → hyphenGo b l = wsHyphenGo b l := by
  intro l
  induction l with
  | nil => intro b _; rfl
  | cons a rest ih =>
    intro b h
    have ha : isHyphenSpace a = isPySpace a := by
      have hne := h a (List.mem_cons_self a rest)
      simp [isHyphenSpace, hne]
    have hrest := fun x hx => h x (List.mem_cons_of_mem a hx)
    show (if isHyphenSpace a then
            if b then hyphenGo true rest else '-' :: hyphenGo true rest
          else a :: hyphenGo false rest)
        = (if isPySpace a then
            if b then wsHyphenGo true rest else '-' :: wsHyphenGo true rest
          else a :: wsHyphenGo false rest)
    rw [ha]
    by_cases hs : isPySpace a
    · simp [hs, ih true hrest]
    · simp [hs, ih false hrest]

/-- C8 (counterexample): the derived identifier does not equal the reference
normalization on every title: on `a-b` the code keeps the hyphen
(`deriveId "a-b" = "a-b"`) while the reference strips it as a non-word
character (`spec_derive_id "a-b" = "ab"`). -/
theorem C8_counterexample :
    deriveId ("a-b".toList) ≠ spec_derive_id ("a-b".toList) := by
  decide

/-- C8 (amended): the derivation is a deterministic pure function of the
title (so equal titles always give the same identifier), and it agrees with
the reference normalization "lower-case, strip non-word characters, collapse
whitespace runs to single hyphens" on titles built from lowercase letters,
digits, underscore and space with no leading/trailing whitespace; titles that
contain hyphens (which the code preserves) or edge whitespace (which the code
trims) can differ from the reference. -/
theorem C8_deriveId_reference (t : Chars)
    (hsafe : t.all (fun c => safeIdChars.contains c) = true)
    (hstrip : pyStrip t = t) :
    deriveId t = spec_derive_id t := by
  have hmem : ∀ c ∈ t, c ∈ safeIdChars := by
    intro c hc
    exact List.mem_of_elem_eq_true (List.all_eq_true.mp hsafe c hc)
  have h1 : List.filter idKeepChar t = t :=
    List.filter_eq_self.mpr (fun a ha => safe_keep (hmem a ha))
  have h2 : t.map pyLower = t :=
    map_id_of_mem t (fun c hc => safe_pyLower (hmem c hc))
  have h3 : List.filter (fun c => isWordChar c || isPySpace c) t = t :=
    List.filter_eq_self.mpr (fun a ha => safe_wordOrSpace (hmem a ha))
  have h4 : (hyphenGo false t).map pyLower = hyphenGo false t :=
    map_id_of_mem _ (fun c hc => by
      rcases mem_hyphenGo t false c hc with rfl | hct
      · rfl
      · exact safe_pyLower (hmem c hct))
  unfold deriveId spec_derive_id
  rw [h1, hstrip, h4, h2, h3,
    hyphenGo_eq_ws t false (fun c hc => safe_ne_hyphen (hmem c hc))]

/-- C8 (witness): the agreement theorem applied to the title `war and peace`. -/
theorem C8_witness :
    ("war and peace".toList).all (fun c => safeIdChars.contains c) = true ∧
    pyStrip ("war and peace".toList) = "war and peace".toList ∧
    deriveId ("war and peace".toList) = spec_derive_id ("war and peace".toList) :=
  ⟨by decide, by decide, C8_deriveId_reference ("war and peace".toList) (by decide) (by decide)⟩

/-! ## C10: the multi-strategy merge -/

/-- Invariants of the dedup-and-truncate loop: on a non-increasingly sorted
input and an accumulator that dominates it, the loop yields a sorted output
with pairwise-distinct keys, at most `size` entries, whose new entries come
from the input with unseen keys and dominate every same-key input entry. -/
theorem dedupLoop_spec (size : Nat) :
    ∀ (l : List SHit) (seen : List String) (acc : List SHit),
      l.Pairwise (fun a b => b.score ≤ a.score) →
      acc.Pairwise (fun a b => b.score ≤ a.score) →
      (∀ a ∈ acc, ∀ x ∈ l, x.score ≤ a.score) →
      (∀ a ∈ acc, hitKey a ∈ seen) →
      (acc.map hitKey).Nodup →
      acc.length < size →
      ((dedupLoop size l seen acc).Pairwise (fun a b => b.score ≤ a.score) ∧
       ((dedupLoop size l seen acc).map hitKey).Nodup ∧
       (dedupLoop size l seen acc).length ≤ size ∧
       (∀ r ∈ dedupLoop size l seen acc, r ∈ acc ∨ (r ∈ l ∧ hitKey r ∉ seen)) ∧
       (∀ r ∈ dedupLoop size l seen acc, ∀ x ∈ l,
          hitKey x = hitKey r → x.score ≤ r.score)) := by
  intro l
  induction l with
  | nil =>
    intro seen acc _ hacc _ _ hnod hlen
    simp only [dedupLoop]
    exact ⟨hacc, hnod, by omega, fun r hr => Or.inl hr,
      fun r _ x hx => absurd hx (List.not_mem_nil x)⟩
  | cons r rest ih =>
    intro seen acc hl hacc hdom hseen hnod hlen
    have hl' := List.pairwise_cons.mp hl
    by_cases hmem : hitKey r ∈ seen
    · rw [show dedupLoop size (r :: rest) seen acc = dedupLoop size rest seen acc
        from by simp [dedupLoop, hmem]]
      have hdom' : ∀ a ∈ acc, ∀ x ∈ rest, x.score ≤ a.score :=
        fun a ha x hx => hdom a ha x (List.mem_cons_of_mem _ hx)
      obtain ⟨p1, p2, p3, p4, p5⟩ := ih seen acc hl'.2 hacc hdom' hseen hnod hlen
      refine ⟨p1, p2, p3,
        fun x hx => (p4 x hx).imp id (fun hp => ⟨List.mem_cons_of_mem _ hp.1, hp.2⟩), ?_⟩
      intro q hq x hx hk
      rcases List.mem_cons.mp hx with rfl | hx'
      · rcases p4 q hq with hqa | ⟨_, hqs⟩
        · exact hdom q hqa x (List.mem_cons_self _ _)
        · exact absurd (hk ▸ hmem) hqs
      · exact p5 q hq x hx' hk
    · have har : ∀ a ∈ acc, r.score ≤ a.score :=
        fun a ha => hdom a ha r (List.mem_cons_self _ _)
      have hacc' : (acc ++ [r]).Pairwise (fun a b => b.score ≤ a.score) := by
        rw [List.pairwise_append]
        exact ⟨hacc, List.pairwise_singleton _ _,
          fun a ha b hb => by rw [List.mem_singleton.mp hb]; exact har a ha⟩
      have hknotin : hitKey r ∉ acc.map hitKey := by
        intro hin
        obtain ⟨a, ha, hka⟩ := List.mem_map.mp hin
        exact hmem (hka ▸ hseen a ha)
      have hnod' : ((acc ++ [r]).map hitKey).Nodup := by
        rw [List.map_append, List.nodup_append]
        exact ⟨hnod, List.nodup_singleton _,
          fun k hk1 hk2 => by rw [List.mem_singleton.mp hk2] at hk1; exact hknotin hk1⟩
      by_cases hsz : size ≤ (acc ++ [r]).length
      · have hsz1 : size ≤ acc.length + 1 := by simpa using hsz
        rw [show dedupLoop size (r :: rest) seen acc = acc ++ [r]
          from by simp [dedupLoop, hmem, hsz1]]
        refine ⟨hacc', hnod', by simp; simp at hsz; omega, ?_, ?_⟩
        · intro q hq
          rcases List.mem_append.mp hq with hqa | hqr
          · exact Or.inl hqa
          · exact Or.inr ⟨by rw [List.mem_singleton.mp hqr]; exact List.mem_cons_self _ _,
              by rw [List.mem_singleton.mp hqr]; exact hmem⟩
        · intro q hq x hx hk
          rcases List.mem_append.mp hq with hqa | hqr
          · exact hdom q hqa x hx
          · rw [List.mem_singleton.mp hqr]
            rcases List.mem_cons.mp hx with rfl | hx'
            · exact Int.le_refl _
            · exact hl'.1 x hx'
      · have hsz1 : ¬ size ≤ acc.length + 1 := by simpa using hsz
        rw [show dedupLoop size (r :: rest) seen acc
          = dedupLoop size rest (hitKey r :: seen) (acc ++ [r])
          from by simp [dedupLoop, hmem, hsz1]]
        have hdom' : ∀ a ∈ acc ++ [r], ∀ x ∈ rest, x.score ≤ a.score := by
          intro a ha x hx
          rcases List.mem_append.mp ha with haa | har1
          · exact hdom a haa x (List.mem_cons_of_mem _ hx)
          · rw [List.mem_singleton.mp har1]; exact hl'.1 x hx
        have hseen' : ∀ a ∈ acc ++ [r], hitKey a ∈ hitKey r :: seen := by
          intro a ha
          rcases List.mem_append.mp ha with haa | har1
          · exact List.mem_cons_of_mem _ (hseen a haa)
          · rw [List.mem_singleton.mp har1]; exact List.mem_cons_self _ _
        have hlen' : (acc ++ [r]).length < size := by
          simp at hsz ⊢; omega
        obtain ⟨p1, p2, p3, p4, p5⟩ :=
          ih (hitKey r :: seen) (acc ++ [r]) hl'.2 hacc' hdom' hseen' hnod' hlen'
        refine ⟨p1, p2, p3, ?_, ?_⟩
        · intro q hq
          rcases p4 q hq with hqa | ⟨hql, hqs⟩
          · rcases List.mem_append.mp hqa with h1 | h1
            · exact Or.inl h1
            · exact Or.inr ⟨by rw [List.mem_singleton.mp h1]; exact List.mem_cons_self _ _,
                by rw [List.mem_singleton.mp h1]; exact hmem⟩
          · exact Or.inr ⟨List.mem_cons_of_mem _ hql,
              fun hs => hqs (List.mem_cons_of_mem _ hs)⟩
        · intro q hq x hx hk
          rcases List.mem_cons.mp hx with rfl | hx'
          · rcases p4 q hq with hqa | ⟨_, hqs⟩
            · rcases List.mem_append.mp hqa with h1 | h1
              · exact hdom q h1 x (List.mem_cons_self _ _)
              · rw [List.mem_singleton.mp h1]
            · exact absurd (hk ▸ List.mem_cons_self (hitKey x) seen) hqs
          · exact p5 q hq x hx' hk

/-- C10 (counterexample): with `size = 0` the merge does not return at most
`size` results: the length test runs only after an append, so one hit slips
through. -/
theorem C10_counterexample :
    ¬ ((search_opensearch_multi_strategy
        (fun s => if s = "combined" then some [⟨"T", "A", 5, ""⟩] else some []) 0).length
      ≤ 0) := by
  have h : (search_opensearch_multi_strategy
      (fun s => if s = "combined" then some [⟨"T", "A", 5, ""⟩] else some []) 0).length
      = 1 := by
    simp [search_opensearch_multi_strategy, allStrategyResults, strategies, dedupLoop]
  omega

/-- C10 (amended): for every query embedding, every `size ≥ 1`, and any
per-strategy result lists the four underlying searches return,
`search_opensearch_multi_strategy` returns at most `size` results, at most one
result per title/author key (keeping, for each key, a hit whose score is
maximal among that key's hits), and the returned list is ordered by
non-increasing score.  (With `size = 0` one result can still be returned,
because the length check runs after the append.) -/
theorem C10_multi_strategy (searchO : String → Option (List SHit)) (size : Nat)
    (hsz : 1 ≤ size) :
    (search_opensearch_multi_strategy searchO size).length ≤ size ∧
    ((search_opensearch_multi_strategy searchO size).map hitKey).Nodup ∧
    (search_opensearch_multi_strategy searchO size).Pairwise
      (fun a b => b.score ≤ a.score) ∧
    ∀ r ∈ search_opensearch_multi_strategy searchO size,
      ∀ x ∈ allStrategyResults searchO, hitKey x = hitKey r → x.score ≤ r.score := by
  unfold search_opensearch_multi_strategy
  have htrans : ∀ (a b c : SHit), decide (b.score ≤ a.score) → decide (c.score ≤ b.score) →
      decide (c.score ≤ a.score) := by
    intro a b c hab hbc
    exact decide_eq_true (Int.le_trans (of_decide_eq_true hbc) (of_decide_eq_true hab))
  have htotal : ∀ (a b : SHit),
      (decide (b.score ≤ a.score) || decide (a.score ≤ b.score)) = true := by
    intro a b
    simp only [Bool.or_eq_true, decide_eq_true_eq]
    omega
  have hsorted : ((allStrategyResults searchO).mergeSort
      (fun a b => decide (b.score ≤ a.score))).Pairwise (fun a b => b.score ≤ a.score) := by
    have h := @List.sorted_mergeSort SHit (fun a b => decide (b.score ≤ a.score))
      htrans htotal (allStrategyResults searchO)
    exact h.imp (fun hab => of_decide_eq_true hab)
  have hperm : List.Perm ((allStrategyResults searchO).mergeSort
      (fun a b => decide (b.score ≤ a.score))) (allStrategyResults searchO) :=
    List.mergeSort_perm _ _
  obtain ⟨p1, p2, p3, p4, p5⟩ := dedupLoop_spec size
    ((allStrategyResults searchO).mergeSort (fun a b => decide (b.score ≤ a.score)))
    [] [] hsorted List.Pairwise.nil (by simp) (by simp) (by simp) (by simp; omega)
  refine ⟨p3, p2, p1, ?_⟩
  intro r hr x hx hk
  exact p5 r hr x (hperm.mem_iff.mpr hx) hk

/-- C10 (witness): the merge theorem applied to a single-strategy result set
with `size = 1`. -/
theorem C10_witness :
    1 ≤ 1 ∧
    ((search_opensearch_multi_strategy
        (fun s => if s = "plot" then some [⟨"T", "A", 3, "x"⟩] else none) 1).length ≤ 1 ∧
      ((search_opensearch_multi_strategy
        (fun s => if s = "plot" then some [⟨"T", "A", 3, "x"⟩] else none) 1).map hitKey).Nodup ∧
      (search_opensearch_multi_strategy
        (fun s => if s = "plot" then some [⟨"T", "A", 3, "x"⟩] else none) 1).Pairwise
          (fun a b => b.score ≤ a.score) ∧
      ∀ r ∈ search_opensearch_multi_strategy
          (fun s => if s = "plot" then some [⟨"T", "A", 3, "x"⟩] else none) 1,
        ∀ x ∈ allStrategyResults
          (fun s => if s = "plot" then some [⟨"T", "A", 3, "x"⟩] else none),
          hitKey x = hitKey r → x.score ≤ r.score) :=
  ⟨Nat.le_refl 1,
    C10_multi_strategy (fun s => if s = "plot" then some [⟨"T", "A", 3, "x"⟩] else none) 1
      (Nat.le_refl 1)⟩
